import Mathlib

/-!
Shallow embedding of the OpenVINO tokenizer custom operations from
`modules/custom_operations/user_ie_extensions/sentence_piece/sentence_piece.cpp`.

Byte buffers are `List Nat` (each entry one byte), `i32` values are `Int`,
and machine-width conversions are made explicit (`% 2^32`, `% 2^64`).
External library calls (SentencePiece `SampleEncode`, fast_tokenizer
pretokenizers and `Tokenize`) are modelled as oracle function parameters;
all bookkeeping around them is translated from the repository source.
-/

/-- Conversion of a C++ signed integer expression to `size_t` (64-bit unsigned),
as happens implicitly when an `int` is compared against a `size_t`. -/
def toSizeT (v : Int) : Nat := (v % (2 ^ 64)).toNat

/-- Little-endian 4-byte serialization of an `int32_t` value, as it is laid out
in memory by `StringTensorPack::evaluate` when it stores `int32_t` fields into
the packed `u8` buffer. -/
def encodeI32 (v : Int) : List Nat :=
  [(v % (2 ^ 32)).toNat % 256,
   (v % (2 ^ 32)).toNat / 256 % 256,
   (v % (2 ^ 32)).toNat / 65536 % 256,
   (v % (2 ^ 32)).toNat / 16777216 % 256]

/-- Concatenation of a list of chunks (flat output buffer built by
successive `std::copy` calls). -/
def concatAll {α : Type} : List (List α) → List α
  | [] => []
  | l :: ls => l ++ concatAll ls

/-- Read four little-endian bytes starting at byte offset `off`, as the
unsigned 32-bit value they spell.  In the C++ source this is
`*reinterpret_cast<const int32_t*>(strings + off)` (little-endian host);
an out-of-bounds read (fewer than 4 bytes available) is undefined behaviour
in C++ and is modelled here as 0 — no verified claim depends on that case. -/
def readU32 (buf : List Nat) (off : Nat) : Nat :=
  match buf.drop off with
  | b0 :: b1 :: b2 :: b3 :: _ => b0 + 256 * b1 + 65536 * b2 + 16777216 * b3
  | _ => 0

/-- The same four bytes interpreted as a signed `int32_t`. -/
def readI32 (buf : List Nat) (off : Nat) : Int :=
  if readU32 buf off < 2 ^ 31 then (readU32 buf off : Int)
  else (readU32 buf off : Int) - 2 ^ 32

/-- `parse_packed_strings` (sentence_piece.cpp, lines 148-159): reads the batch
size `N` from the first 4 bytes, checks `bitstream_size >= 4` and
`bitstream_size >= 4 + 4 + 4 * batch_size` (the right-hand side is an `int`
expression converted to `size_t` for the comparison, hence `toSizeT`), and
exposes `begin_ids = offsets[0..N)`, `end_ids = offsets[1..N+1)` and the
symbol bytes that follow the offset table. -/
def parse_packed_strings (buf : List Nat) :
    Option (Nat × List Int × List Int × List Nat) :=
  if buf.length < 4 then none
  else if buf.length < toSizeT (4 + 4 + 4 * readI32 buf 0) then none
  else
    some ((readI32 buf 0).toNat,
      (List.range (readI32 buf 0).toNat).map
        (fun i => readI32 buf (4 + 4 * i)),
      (List.range (readI32 buf 0).toNat).map
        (fun i => readI32 buf (8 + 4 * i)),
      buf.drop (8 + 4 * (readI32 buf 0).toNat))

/-- `StringTensorUnpack::evaluate` (sentence_piece.cpp, lines 508-556), u8
packed branch: after `parse_packed_strings`, it takes
`num_chars = end_ids[batch_size - 1]` (for `batch_size = 0` this pointer
arithmetic reads the leading offset at byte 4, so uniformly the `int32` at
byte `4 + 4 * N`) and copies `begin_ids`, `end_ids` and the first `num_chars`
symbol bytes to the outputs.  The C++ `std::copy` would read past the end of
the buffer if `num_chars` exceeds the available bytes; `List.take` clamps
instead, and negative `num_chars` is clamped to 0 by `Int.toNat`. -/
def StringTensorUnpack_evaluate (buf : List Nat) :
    Option (List Int × List Int × List Nat) :=
  (parse_packed_strings buf).map (fun t =>
    (t.2.1, t.2.2.1, t.2.2.2.take (readI32 buf (4 + 4 * t.1)).toNat))

/-- `StringTensorPack::evaluate` (sentence_piece.cpp, lines 340-375): emits
`num_elements : i32`, a leading `0 : i32`, the `ends` array
(`begins` is ignored — "no repacking happens in this version of code"),
then all `chars` bytes. -/
def StringTensorPack_evaluate (begins ends : List Int) (chars : List Nat) :
    List Nat :=
  encodeI32 (begins.length : Int) ++ encodeI32 0 ++
    concatAll ((ends.take begins.length).map encodeI32) ++ chars

/-- The canonical packed layout of §3 of the spec: `[N : i32][offsets[0..N] :
i32][bytes...]` with first offset 0, written out byte for byte.  `ends` is
`offsets[1..N]`. -/
def canonicalPacked (N : Nat) (ends : List Int) (chars : List Nat) : List Nat :=
  encodeI32 (N : Int) ++ encodeI32 0 ++ concatAll (ends.map encodeI32) ++ chars

/-- The fixed byte-to-char table `create_bytes_to_chars_map` (sentence_piece.cpp,
lines 1232-1491), translated entry for entry: the C++ `unordered_map` holds
exactly the 256 byte keys, rendered here as a list indexed by the byte
value (entry `b` of this list is the map's value at key `b`). -/
def bytes_to_chars_table : List (List Nat) :=
  [   [196, 128],
   [196, 129],
   [196, 130],
   [196, 131],
   [196, 132],
   [196, 133],
   [196, 134],
   [196, 135],
   [196, 136],
   [196, 137],
   [196, 138],
   [196, 139],
   [196, 140],
   [196, 141],
   [196, 142],
   [196, 143],
   [196, 144],
   [196, 145],
   [196, 146],
   [196, 147],
   [196, 148],
   [196, 149],
   [196, 150],
   [196, 151],
   [196, 152],
   [196, 153],
   [196, 154],
   [196, 155],
   [196, 156],
   [196, 157],
   [196, 158],
   [196, 159],
   [196, 160],
   [33],
   [34],
   [35],
   [36],
   [37],
   [38],
   [39],
   [40],
   [41],
   [42],
   [43],
   [44],
   [45],
   [46],
   [47],
   [48],
   [49],
   [50],
   [51],
   [52],
   [53],
   [54],
   [55],
   [56],
   [57],
   [58],
   [59],
   [60],
   [61],
   [62],
   [63],
   [64],
   [65],
   [66],
   [67],
   [68],
   [69],
   [70],
   [71],
   [72],
   [73],
   [74],
   [75],
   [76],
   [77],
   [78],
   [79],
   [80],
   [81],
   [82],
   [83],
   [84],
   [85],
   [86],
   [87],
   [88],
   [89],
   [90],
   [91],
   [92],
   [93],
   [94],
   [95],
   [96],
   [97],
   [98],
   [99],
   [100],
   [101],
   [102],
   [103],
   [104],
   [105],
   [106],
   [107],
   [108],
   [109],
   [110],
   [111],
   [112],
   [113],
   [114],
   [115],
   [116],
   [117],
   [118],
   [119],
   [120],
   [121],
   [122],
   [123],
   [124],
   [125],
   [126],
   [196, 161],
   [196, 162],
   [196, 163],
   [196, 164],
   [196, 165],
   [196, 166],
   [196, 167],
   [196, 168],
   [196, 169],
   [196, 170],
   [196, 171],
   [196, 172],
   [196, 173],
   [196, 174],
   [196, 175],
   [196, 176],
   [196, 177],
   [196, 178],
   [196, 179],
   [196, 180],
   [196, 181],
   [196, 182],
   [196, 183],
   [196, 184],
   [196, 185],
   [196, 186],
   [196, 187],
   [196, 188],
   [196, 189],
   [196, 190],
   [196, 191],
   [197, 128],
   [197, 129],
   [197, 130],
   [194, 161],
   [194, 162],
   [194, 163],
   [194, 164],
   [194, 165],
   [194, 166],
   [194, 167],
   [194, 168],
   [194, 169],
   [194, 170],
   [194, 171],
   [194, 172],
   [197, 131],
   [194, 174],
   [194, 175],
   [194, 176],
   [194, 177],
   [194, 178],
   [194, 179],
   [194, 180],
   [194, 181],
   [194, 182],
   [194, 183],
   [194, 184],
   [194, 185],
   [194, 186],
   [194, 187],
   [194, 188],
   [194, 189],
   [194, 190],
   [194, 191],
   [195, 128],
   [195, 129],
   [195, 130],
   [195, 131],
   [195, 132],
   [195, 133],
   [195, 134],
   [195, 135],
   [195, 136],
   [195, 137],
   [195, 138],
   [195, 139],
   [195, 140],
   [195, 141],
   [195, 142],
   [195, 143],
   [195, 144],
   [195, 145],
   [195, 146],
   [195, 147],
   [195, 148],
   [195, 149],
   [195, 150],
   [195, 151],
   [195, 152],
   [195, 153],
   [195, 154],
   [195, 155],
   [195, 156],
   [195, 157],
   [195, 158],
   [195, 159],
   [195, 160],
   [195, 161],
   [195, 162],
   [195, 163],
   [195, 164],
   [195, 165],
   [195, 166],
   [195, 167],
   [195, 168],
   [195, 169],
   [195, 170],
   [195, 171],
   [195, 172],
   [195, 173],
   [195, 174],
   [195, 175],
   [195, 176],
   [195, 177],
   [195, 178],
   [195, 179],
   [195, 180],
   [195, 181],
   [195, 182],
   [195, 183],
   [195, 184],
   [195, 185],
   [195, 186],
   [195, 187],
   [195, 188],
   [195, 189],
   [195, 190],
   [195, 191]]

/-- Lookup `m_bytes_to_chars.at(byte)`; every byte value `0..255` is a key
of the table, `.at` on any other value would throw (unreachable for bytes,
rendered as `[]`). -/
def bytes_to_chars (b : Nat) : List Nat :=
  bytes_to_chars_table.getD b []

/-- Two-byte UTF-8 encoding of a code point in `[0x80, 0x800)` (all two-byte
entries of the table are of this shape). -/
def utf8TwoByte (c : Nat) : List Nat := [192 + c / 64, 128 + c % 64]

/-- The code point that the GPT-2 byte-to-char scheme assigns to the
non-printable byte values (`0..32`, `127..160`, `173`): consecutive code
points from 0x100 upward, in that order. -/
def remappedCodePoint (b : Nat) : Nat :=
  if b ≤ 32 then 256 + b
  else if b ≤ 160 then 289 + (b - 127)
  else 323

/-- The characterization of the byte-to-char table used by claim C6:
every byte maps to 1 or 2 output bytes; printable ASCII `33..126` maps to
itself as a single byte; `161..172` and `174..255` map to the two-byte UTF-8
encoding of the code point equal to the byte value; the remaining bytes map
to the two-byte UTF-8 encoding of a code point in `[0x100, 0x143]`. -/
def C6TableSpec (b : Nat) : Prop :=
  1 ≤ (bytes_to_chars b).length ∧ (bytes_to_chars b).length ≤ 2 ∧
  (33 ≤ b ∧ b ≤ 126 → bytes_to_chars b = [b]) ∧
  ((161 ≤ b ∧ b ≤ 172) ∨ (174 ≤ b ∧ b ≤ 255) →
    bytes_to_chars b = utf8TwoByte b) ∧
  (b ≤ 32 ∨ (127 ≤ b ∧ b ≤ 160) ∨ b = 173 →
    bytes_to_chars b = utf8TwoByte (remappedCodePoint b) ∧
    256 ≤ remappedCodePoint b ∧ remappedCodePoint b ≤ 323)

instance C6TableSpec_decidable (b : Nat) : Decidable (C6TableSpec b) := by
  unfold C6TableSpec
  infer_instance

/-- Word indices `[a, b)` of the C++ loops
`for (word = ragged_begins[seq]; word < ragged_ends[seq]; ++word)`. -/
def intRange (a b : Int) : List Nat :=
  (List.range (b - a).toNat).map (fun k => a.toNat + k)

/-- One row of `RaggedToDense::evaluate` (sentence_piece.cpp, lines
1992-2004): `len = min(size_t(ends[i] - begins[i]), target_dim)` (the
`size_t` cast makes a negative difference huge, hence `toSizeT`), then the
copied elements followed by `default_value` padding up to `target_dim`. -/
def raggedToDenseRowElems (elems : List Int) (default_value : Int)
    (target_dim : Nat) (b e : Int) : List Int :=
  (elems.drop b.toNat).take (min (toSizeT (e - b)) target_dim) ++
    List.replicate (target_dim - min (toSizeT (e - b)) target_dim)
      default_value

/-- The mask row written by the same loop: `len` ones then
`target_dim - len` zeros. -/
def raggedToDenseRowMask (target_dim : Nat) (b e : Int) : List Bool :=
  List.replicate (min (toSizeT (e - b)) target_dim) true ++
    List.replicate (target_dim - min (toSizeT (e - b)) target_dim) false

/-- `RaggedToDense::evaluate` (sentence_piece.cpp, lines 1972-2009): both
flat output buffers, rows written back to back.  The function is total:
overlong rows are truncated by the `min`, no error path exists. -/
def RaggedToDense_evaluate (begins ends elems : List Int) (target_dim : Nat)
    (default_value : Int) : List Int × List Bool :=
  (concatAll ((List.range begins.length).map (fun i =>
      raggedToDenseRowElems elems default_value target_dim
        (begins.getD i 0) (ends.getD i 0))),
   concatAll ((List.range begins.length).map (fun i =>
      raggedToDenseRowMask target_dim (begins.getD i 0) (ends.getD i 0))))

/-- Row `i` of a flat row-major buffer of row width `width`. -/
def sliceRow {α : Type} (l : List α) (width i : Nat) : List α :=
  (l.drop (i * width)).take width

/-- A ragged tensor input to `CombineSegments`: three parallel arrays. -/
structure RaggedTensor where
  begins : List Int
  ends : List Int
  elems : List Int

/-- Inner loop of `CombineSegments::evaluate` (sentence_piece.cpp, lines
2113-2129) for output row `i`: for each ragged input `j` (paired with its
segment id), read row `i` (row 0 if the input has a single row — limited
broadcast), copy its elements, and repeat the segment id once per element;
`out_offset` advances by `len = ends[j][k] - begins[j][k]` computed in
`size_t`.  Returns (row elements, row segment ids, row length). -/
def combineRow (inputs : List (RaggedTensor × Int)) (i : Nat) :
    List Int × List Int × Nat :=
  match inputs with
  | [] => ([], [], 0)
  | (t, sid) :: rest =>
      let k := if t.begins.length = 1 then 0 else i
      let b := t.begins.getD k 0
      let e := t.ends.getD k 0
      let len := toSizeT (e - b)
      let r := combineRow rest i
      ((t.elems.drop b.toNat).take len ++ r.1,
       List.replicate len sid ++ r.2.1,
       len + r.2.2)

/-- Outer loop of `CombineSegments::evaluate` (lines 2109-2133): for each
output row, both begin arrays receive the current `out_offset` and both end
arrays receive the advanced offset; elements and repeated segment ids are
appended to the two flat buffers. -/
def combineRows (inputs : List (RaggedTensor × Int)) :
    List Nat → Nat →
      List Nat × List Nat × List Int × List Nat × List Nat × List Int
  | [], _ => ([], [], [], [], [], [])
  | i :: rest, off =>
      let row := combineRow inputs i
      let r := combineRows inputs rest (off + row.2.2)
      (off :: r.1, (off + row.2.2) :: r.2.1, row.1 ++ r.2.2.1,
       off :: r.2.2.2.1, (off + row.2.2) :: r.2.2.2.2.1,
       row.2.1 ++ r.2.2.2.2.2)

/-- `CombineSegments::evaluate` (sentence_piece.cpp, lines 2040-2143):
`max_nelems` is the maximum row count over the ragged inputs; outputs are
(elem rag_begins, elem rag_ends, elems, id rag_begins, id rag_ends, ids). -/
def CombineSegments_evaluate (inputs : List RaggedTensor) (ids : List Int) :
    List Nat × List Nat × List Int × List Nat × List Nat × List Int :=
  let max_nelems := (inputs.map (fun t => t.begins.length)).foldr max 0
  combineRows (inputs.zip ids) (List.range max_nelems) 0

/-- The loop of `evaluate_normalization_helper` (sentence_piece.cpp, lines
689-724): for each string, `new_begins[i] = buffer.size()`, the normalized
bytes are appended to the growing buffer, then `new_ends[i] = buffer.size()`.
`rows` is `begins.zip ends`, `bufLen` the current buffer size. -/
def evaluate_normalization_helper_go (chars : List Nat)
    (normalizer : List Nat → List Nat) :
    List (Int × Int) → Nat → List Int × List Int × List Nat
  | [], _ => ([], [], [])
  | (b, e) :: rest, bufLen =>
      let s := normalizer ((chars.drop b.toNat).take (e - b).toNat)
      let r := evaluate_normalization_helper_go chars normalizer rest
        (bufLen + s.length)
      ((bufLen : Int) :: r.1, ((bufLen + s.length : Nat) : Int) :: r.2.1,
       s ++ r.2.2)

/-- `evaluate_normalization_helper` shared by CaseFold, NormalizeUnicode and
RegexNormalization; the per-string `std::string -> std::string` transform
(a fast_tokenizer library call in all three users) is the `normalizer`
oracle parameter. -/
def evaluate_normalization_helper (begins ends : List Int) (chars : List Nat)
    (normalizer : List Nat → List Nat) : List Int × List Int × List Nat :=
  evaluate_normalization_helper_go chars normalizer (begins.zip ends) 0

/-- The word read by `WordpieceTokenizer::evaluate` for word index `i`:
`std::string(chars + begins[i], chars + ends[i])`. -/
def wordSlice (begins ends : List Int) (chars : List Nat) (i : Nat) :
    List Nat :=
  (chars.drop ((begins.getD i 0)).toNat).take
    ((ends.getD i 0) - (begins.getD i 0)).toNat

/-- The loop of `WordpieceTokenizer::evaluate` (sentence_piece.cpp, lines
1634-1652): per output row `j`, `new_begins[j] = offset`, all token ids of
all words of the row are appended (`tokenize` is the external
`FastWordPiece::Tokenize`), then `new_ends[j] = offset`. -/
def WordpieceTokenizer_go (tokenize : List Nat → List Int)
    (begins ends : List Int) (chars : List Nat) :
    List (Int × Int) → Int → List Int × List Int × List Int
  | [], _ => ([], [], [])
  | (rb, re) :: rest, off =>
      let rowIds := concatAll ((intRange rb re).map (fun i =>
        tokenize (wordSlice begins ends chars i)))
      let r := WordpieceTokenizer_go tokenize begins ends chars rest
        (off + (rowIds.length : Int))
      (off :: r.1, (off + (rowIds.length : Int)) :: r.2.1, rowIds ++ r.2.2)

/-- `WordpieceTokenizer::evaluate` (sentence_piece.cpp, lines 1573-1657):
vocab reading and `FastWordPiece` construction are external library state
captured by the `tokenize` oracle; the ragged bookkeeping is the source
loop.  The flat output is trimmed to `offset` elements at the end. -/
def WordpieceTokenizer_evaluate (tokenize : List Nat → List Int)
    (rag_begins rag_ends begins ends : List Int) (chars : List Nat) :
    List Int × List Int × List Int :=
  WordpieceTokenizer_go tokenize begins ends chars
    (rag_begins.zip rag_ends) 0

/-- The loop of `BPETokenizer::evaluate` (sentence_piece.cpp, lines
1835-1853), identical ragged bookkeeping with the external `BPE::Tokenize`
as the oracle. -/
def BPETokenizer_go (tokenize : List Nat → List Int)
    (begins ends : List Int) (chars : List Nat) :
    List (Int × Int) → Int → List Int × List Int × List Int
  | [], _ => ([], [], [])
  | (rb, re) :: rest, off =>
      let rowIds := concatAll ((intRange rb re).map (fun i =>
        tokenize (wordSlice begins ends chars i)))
      let r := BPETokenizer_go tokenize begins ends chars rest
        (off + (rowIds.length : Int))
      (off :: r.1, (off + (rowIds.length : Int)) :: r.2.1, rowIds ++ r.2.2)

/-- `BPETokenizer::evaluate` (sentence_piece.cpp, lines 1744-1858). -/
def BPETokenizer_evaluate (tokenize : List Nat → List Int)
    (rag_begins rag_ends begins ends : List Int) (chars : List Nat) :
    List Int × List Int × List Int :=
  BPETokenizer_go tokenize begins ends chars (rag_begins.zip rag_ends) 0

/-- The gap-free contiguous-partition invariant of claim C10, threaded as a
chain: `offsetsChain k begins ends t` holds when `begins` and `ends` are
parallel, the first begin equals `k`, each later begin equals the previous
end, and the final accumulated end (the last end, or `k` itself for an
empty batch) equals `t`.  `offsetsChain 0 begins ends total` says exactly:
the first begin offset is 0, each element's begin equals the previous
element's end, and the last end equals `total`. -/
def offsetsChain (k : Int) : List Int → List Int → Int → Prop
  | [], [], t => k = t
  | b :: bs, e :: es, t => b = k ∧ offsetsChain e bs es t
  | _, _, _ => False

/-- The per-sentence loop of `SentencepieceTokenizer::evaluate`
(sentence_piece.cpp, lines 211-232).  `encode` is the external
`SampleEncode` call returning `none` on a failing `util::Status`;
`CHECK_OK` on a failing status terminates evaluation (it never continues
past the failed sentence), modelled by propagating `none`.  On success the
sentence's `(batch, pos)` sparse index pairs and token values are appended
and the running maximum row length is updated. -/
def SentencepieceTokenizer_go (encode : List Nat → Option (List Int)) :
    List (List Nat) → Int → Nat →
      Option (List (Int × Int) × List Int × Nat)
  | [], _, maxT => some ([], [], maxT)
  | s :: rest, bi, maxT =>
      match encode s with
      | none => none
      | some ids =>
          match SentencepieceTokenizer_go encode rest (bi + 1)
              (max maxT ids.length) with
          | none => none
          | some r =>
              some (((List.range ids.length).map
                  (fun t => (bi, (t : Int)))) ++ r.1,
                ids ++ r.2.1, r.2.2)

/-- `SentencepieceTokenizer::evaluate` over an already-parsed batch of
sentences: sparse indices, sparse values and
`dense_shape = (batch_size, max_token_id)`. -/
def SentencepieceTokenizer_evaluate (encode : List Nat → Option (List Int))
    (sentences : List (List Nat)) :
    Option (List (Int × Int) × List Int × (Int × Int)) :=
  (SentencepieceTokenizer_go encode sentences 0 0).map (fun r =>
    (r.1, r.2.1, ((sentences.length : Int), (r.2.2 : Int))))

/-- The split-mode table `split_modes` (sentence_piece.cpp, lines 950-957). -/
inductive SplitMode where
  | REMOVED
  | ISOLATED
  | MERGED_WITH_PREVIOUS
  | MERGED_WITH_NEXT
deriving DecidableEq

/-- The `std::map<std::string, SplitMode>` literal from the source, key for
key. -/
def split_modes : List (String × SplitMode) :=
  [("remove", SplitMode.REMOVED),
   ("isolate", SplitMode.ISOLATED),
   ("merge_with_previous", SplitMode.MERGED_WITH_PREVIOUS),
   ("merge_with_next", SplitMode.MERGED_WITH_NEXT)]

/-- `RegexSplit::validate_and_infer_types` (sentence_piece.cpp, lines
961-968) asserts `split_modes.find(m_behaviour) != split_modes.end()`;
`true` means validation passes, `false` means the `UnknownSplitMode`
assertion fires. -/
def RegexSplit_validate (behaviour : String) : Bool :=
  (split_modes.lookup behaviour).isSome

/-- The word loop of the ragged branch of `RegexSplit::evaluate`
(sentence_piece.cpp, lines 1081-1102).  `splitf` is the external
`SplitPreTokenizer` returning the `GetOrginalOffset()` pairs of the split
parts of one word.  Inside the loop `new_ragged_begins[seq] =
ragged_offset` is (re)assigned before each word's parts are appended —
exactly as in the source, where the assignment sits inside the word loop —
so `cur` tracks the last value written to that cell (`none` = never
written).  Per part, `new_begins/new_ends` receive
`begins[word] + offset.first/second`. -/
def RegexSplit_words (splitf : List Nat → List (Int × Int))
    (begins ends : List Int) (chars : List Nat) :
    List Nat → Int → Option Int → Option Int × Int × List Int × List Int
  | [], off, cur => (cur, off, [], [])
  | w :: rest, off, cur =>
      let splits := splitf (wordSlice begins ends chars w)
      let r := RegexSplit_words splitf begins ends chars rest
        (off + (splits.length : Int)) (some off)
      (r.1, r.2.1,
       splits.map (fun p => begins.getD w 0 + p.1) ++ r.2.2.1,
       splits.map (fun p => begins.getD w 0 + p.2) ++ r.2.2.2)

/-- The row loop of the same branch (lines 1080-1105):
`new_ragged_ends[seq] = ragged_offset` after the row's words;
`new_ragged_begins[seq]` keeps whatever the word loop last wrote (`none`
for a row with no words). -/
def RegexSplit_rows (splitf : List Nat → List (Int × Int))
    (begins ends : List Int) (chars : List Nat) :
    List (Int × Int) → Int →
      List (Option Int) × List Int × List Int × List Int
  | [], _ => ([], [], [], [])
  | (rb, re) :: rest, off =>
      let w := RegexSplit_words splitf begins ends chars (intRange rb re)
        off none
      let r := RegexSplit_rows splitf begins ends chars rest w.2.1
      (w.1 :: r.1, w.2.1 :: r.2.1, w.2.2.1 ++ r.2.2.1,
       w.2.2.2 ++ r.2.2.2)

/-- The ragged branch of `RegexSplit::evaluate` (sentence_piece.cpp, lines
1045-1110).  The row loop is bounded by `num_elements =
inputs[2].get_size()` (line 1056) — the number of individual strings `M`,
not the number of rag cells `B` — and reads `ragged_begins[seq]` /
`ragged_ends[seq]` for `seq < M` (when `M` exceeds the rag arrays' length
those reads go past them in C++, undefined behaviour clamped here by
`getD`; no theorem depends on that case).  The outputs `new_ragged_begins`
/ `new_ragged_ends` have one cell per input rag cell (shapes of inputs 0
and 1); a cell at an index the loop never reaches (`M < B`) stays
uninitialized (`none`), and writes beyond `B` (`M > B`, out of bounds in
C++) are truncated.  `outputs[4] = inputs[4]` passes `chars` through. -/
def RegexSplit_evaluate_ragged (splitf : List Nat → List (Int × Int))
    (rag_begins rag_ends begins ends : List Int) (chars : List Nat) :
    List (Option Int) × List (Option Int) × List Int × List Int ×
      List Nat :=
  let r := RegexSplit_rows splitf begins ends chars
    ((List.range begins.length).map
      (fun seq => (rag_begins.getD seq 0, rag_ends.getD seq 0))) 0
  ((r.1.take rag_begins.length) ++
     List.replicate (rag_begins.length - r.1.length) none,
   ((r.2.1.map some).take rag_ends.length) ++
     List.replicate (rag_ends.length - r.2.1.length) none,
   r.2.2.1, r.2.2.2, chars)

/-- One word of `BytesToChars::evaluate`: each byte of
`chars[begins[i]..ends[i])` is replaced by its table image. -/
def bytesToCharsWord (chars : List Nat) (b e : Int) : List Nat :=
  concatAll (((chars.drop b.toNat).take (e - b).toNat).map bytes_to_chars)

/-- The loop of `BytesToChars::evaluate` (sentence_piece.cpp, lines
1522-1534).  The outputs `new_begins`/`new_ends` are allocated with one
cell per *string* (shapes of inputs 2 and 3) but the loop indexes them with
the *row* counter `j`, writing only one begin/end pair per row; a cell the
loop never writes is `none` (uninitialized memory in the C++). -/
def BytesToChars_rows (begins ends : List Int) (chars : List Nat) :
    List (Int × Int) → Nat →
      List (Option Int) × List (Option Int) × List Nat
  | [], _ => ([], [], [])
  | (rb, re) :: rest, cp =>
      let row := concatAll ((intRange rb re).map (fun i =>
        bytesToCharsWord chars (begins.getD i 0) (ends.getD i 0)))
      let r := BytesToChars_rows begins ends chars rest (cp + row.length)
      (some (cp : Int) :: r.1, some ((cp + row.length : Nat) : Int) :: r.2.1,
       row ++ r.2.2)

/-- `BytesToChars::evaluate` (sentence_piece.cpp, lines 1499-1564):
`outputs[0] = inputs[0]` and `outputs[1] = inputs[1]` (rag offsets pass
through); `new_begins`/`new_ends` have `begins.length`/`ends.length` cells
of which only the first row-count many are written; the fresh `chars`
buffer holds the remapped bytes. -/
def BytesToChars_evaluate (rag_begins rag_ends begins ends : List Int)
    (chars : List Nat) :
    List Int × List Int × List (Option Int) × List (Option Int) ×
      List Nat :=
  let w := BytesToChars_rows begins ends chars (rag_begins.zip rag_ends) 0
  (rag_begins, rag_ends,
   w.1 ++ List.replicate (begins.length - w.1.length) none,
   w.2.1 ++ List.replicate (ends.length - w.2.1.length) none,
   w.2.2)

/-- The `SampleEncode` oracle used by the C4 counterexample: encoding fails
(returns a failing status) exactly on the one-byte sentence `[0]` and
succeeds with a single token elsewhere. -/
def encodeFailOnFirst (s : List Nat) : Option (List Int) :=
  if s = [0] then none else some [5]

/-- The split oracle used by the C8 failing input: every word is one
whole-string part. -/
def wholeStringSplit (s : List Nat) : List (Int × Int) :=
  [(0, (s.length : Int))]

/-- The concrete malformed buffer of the C3 counterexample: batch size 1,
`offsets = [0, 100]`, but no payload bytes at all. -/
def overflowingPacked : List Nat := canonicalPacked 1 [100] []

theorem length_encodeI32 (v : Int) : (encodeI32 v).length = 4 := rfl

theorem length_concatAll_encode (l : List Int) :
    (concatAll (l.map encodeI32)).length = 4 * l.length := by
  induction l with
  | nil => rfl
  | cons x xs ih =>
      simp [concatAll, length_encodeI32, ih]
      ring

theorem readU32_append (a buf : List Nat) (k : Nat) :
    readU32 (a ++ buf) (a.length + k) = readU32 buf k := by
  unfold readU32
  rw [List.drop_append]

theorem readI32_append (a buf : List Nat) (k : Nat) :
    readI32 (a ++ buf) (a.length + k) = readI32 buf k := by
  unfold readI32
  rw [readU32_append]

theorem readU32_encodeI32 (v : Int) (rest : List Nat) (h0 : 0 ≤ v)
    (h1 : v < 2 ^ 32) :
    readU32 (encodeI32 v ++ rest) 0 = v.toNat := by
  have hv : v % 2 ^ 32 = v := Int.emod_eq_of_lt h0 h1
  have hn : (v % 2 ^ 32).toNat = v.toNat := by rw [hv]
  simp only [encodeI32, hn, readU32, List.cons_append, List.drop_zero]
  have : v.toNat < 2 ^ 32 := by omega
  omega

theorem readI32_encodeI32 (v : Int) (rest : List Nat) (h0 : 0 ≤ v)
    (h1 : v < 2 ^ 31) :
    readI32 (encodeI32 v ++ rest) 0 = v := by
  have h2 : v < 2 ^ 32 := by omega
  unfold readI32
  rw [readU32_encodeI32 v rest h0 h2]
  have : v.toNat < 2 ^ 31 := by omega
  simp only [if_pos this]
  omega

theorem drop_append_length (a b : List Nat) (n : Nat) (h : a.length = n) :
    (a ++ b).drop n = b := by
  subst h; exact List.drop_left a b

theorem readI32_concat_encode (l : List Int) (tail : List Nat) (j : Nat)
    (hj : j < l.length) (hrange : ∀ e ∈ l, 0 ≤ e ∧ e < 2 ^ 31) :
    readI32 (concatAll (l.map encodeI32) ++ tail) (4 * j) = l.getD j 0 := by
  induction l generalizing j tail with
  | nil => simp at hj
  | cons e es ih =>
      cases j with
      | zero =>
          have he := hrange e (List.mem_cons_self e es)
          simpa [concatAll, List.append_assoc] using
            readI32_encodeI32 e (concatAll (es.map encodeI32) ++ tail) he.1 he.2
      | succ k =>
          have hlen : 4 * (k + 1) = (encodeI32 e).length + 4 * k := by
            simp [length_encodeI32]; ring
          simp only [List.map_cons, concatAll, List.append_assoc, hlen,
            readI32_append, List.getD_cons_succ]
          exact ih tail k (by simpa using hj)
            (fun x hx => hrange x (List.mem_cons_of_mem e hx))

theorem length_canonicalPacked (N : Nat) (ends : List Int) (chars : List Nat)
    (hlen : ends.length = N) :
    (canonicalPacked N ends chars).length = 8 + 4 * N + chars.length := by
  simp [canonicalPacked, length_encodeI32, length_concatAll_encode, hlen]
  ring

theorem readI32_canonicalPacked_zero (N : Nat) (ends : List Int)
    (chars : List Nat) (hN : N < 2 ^ 31) :
    readI32 (canonicalPacked N ends chars) 0 = (N : Int) := by
  unfold canonicalPacked
  exact readI32_encodeI32 (N : Int)
    (encodeI32 0 ++ (concatAll (ends.map encodeI32) ++ chars))
    (by positivity) (by exact_mod_cast hN)

theorem readI32_canonicalPacked_offset (N : Nat) (ends : List Int)
    (chars : List Nat) (hlen : ends.length = N) (j : Nat) (hj : j ≤ N)
    (hrange : ∀ e ∈ ends, 0 ≤ e ∧ e < 2 ^ 31) :
    readI32 (canonicalPacked N ends chars) (4 + 4 * j) =
      (0 :: ends).getD j 0 := by
  have hstep : canonicalPacked N ends chars =
      encodeI32 (N : Int) ++
        (concatAll ((0 :: ends).map encodeI32) ++ chars) := by
    simp [canonicalPacked, concatAll, List.append_assoc]
  rw [hstep]
  have h4 : 4 + 4 * j = (encodeI32 (N : Int)).length + 4 * j := by
    simp [length_encodeI32]
  rw [h4, readI32_append]
  exact readI32_concat_encode (0 :: ends) chars j (by simp [hlen]; omega)
    (by
      intro e he
      rcases List.mem_cons.mp he with h | h
      · subst h; exact ⟨le_refl 0, by norm_num⟩
      · exact hrange e h)

theorem drop_canonicalPacked (N : Nat) (ends : List Int) (chars : List Nat)
    (hlen : ends.length = N) :
    (canonicalPacked N ends chars).drop (8 + 4 * N) = chars := by
  have hstep : canonicalPacked N ends chars =
      (encodeI32 (N : Int) ++ encodeI32 0 ++ concatAll (ends.map encodeI32)) ++
        chars := by
    simp [canonicalPacked, List.append_assoc]
  rw [hstep]
  exact drop_append_length _ _ _
    (by simp [length_encodeI32, length_concatAll_encode, hlen]; ring)

/-- Claim C2: for every canonical (gap-free, first offset 0) packed string
buffer — laid out as `[N][0][ends[0..N)][chars]` with in-range, nondecreasing
end offsets whose last entry (`offsets[N]`) equals the payload length —
`StringTensorUnpack` followed by `StringTensorPack` reproduces the original
packed byte buffer exactly. -/
theorem C2_pack_unpack_identity (N : Nat) (ends : List Int) (chars : List Nat)
    (hN : N < 2 ^ 31) (hlen : ends.length = N)
    (hrange : ∀ e ∈ ends, 0 ≤ e ∧ e < 2 ^ 31)
    (hmono : List.Chain' (fun a b => a ≤ b) (0 :: ends))
    (hlast : ((0 :: ends).getD N 0).toNat = chars.length) :
    (StringTensorUnpack_evaluate (canonicalPacked N ends chars)).map
      (fun t => StringTensorPack_evaluate t.1 t.2.1 t.2.2) =
    some (canonicalPacked N ends chars) := by
  have hbuflen := length_canonicalPacked N ends chars hlen
  have hread0 := readI32_canonicalPacked_zero N ends chars hN
  have hsize : toSizeT (4 + 4 + 4 * (N : Int)) = 8 + 4 * N := by
    unfold toSizeT
    have h1 : (0 : Int) ≤ 4 + 4 + 4 * (N : Int) := by positivity
    have h2 : 4 + 4 + 4 * (N : Int) < 2 ^ 64 := by
      have : (N : Int) < 2 ^ 31 := by exact_mod_cast hN
      omega
    rw [Int.emod_eq_of_lt h1 h2]
    omega
  have hparse : parse_packed_strings (canonicalPacked N ends chars) =
      some (N,
        (List.range N).map
          (fun i => readI32 (canonicalPacked N ends chars) (4 + 4 * i)),
        (List.range N).map
          (fun i => readI32 (canonicalPacked N ends chars) (8 + 4 * i)),
        (canonicalPacked N ends chars).drop (8 + 4 * N)) := by
    unfold parse_packed_strings
    rw [if_neg (by omega)]
    simp only [hread0, hsize]
    rw [if_neg (by omega)]
    simp
  have hends : (List.range N).map
      (fun i => readI32 (canonicalPacked N ends chars) (8 + 4 * i)) = ends := by
    apply List.ext_getElem
    · simp [hlen]
    · intro i h1 h2
      simp only [List.getElem_map, List.getElem_range]
      have h8 : 8 + 4 * i = 4 + 4 * (i + 1) := by ring
      rw [h8, readI32_canonicalPacked_offset N ends chars hlen (i + 1)
        (by simp [hlen] at h2 ⊢; omega) hrange]
      simp only [List.getD_cons_succ]
      exact List.getD_eq_getElem ends 0 h2
  have hnum : readI32 (canonicalPacked N ends chars) (4 + 4 * N) =
      (0 :: ends).getD N 0 :=
    readI32_canonicalPacked_offset N ends chars hlen N (le_refl N) hrange
  unfold StringTensorUnpack_evaluate
  rw [hparse]
  simp only [Option.map_some']
  rw [hends, hnum, drop_canonicalPacked N ends chars hlen, hlast,
    List.take_length]
  unfold StringTensorPack_evaluate
  simp only [List.length_map, List.length_range]
  rw [show ends.take N = ends from by rw [← hlen, List.take_length]]
  rfl

/-- Witness for C2 at the concrete canonical buffer with `N = 2`,
`offsets = [0, 3, 5]`, payload `[7, 8, 9, 10, 11]`. -/
theorem C2_pack_unpack_identity_witness :
    (StringTensorUnpack_evaluate (canonicalPacked 2 [3, 5] [7, 8, 9, 10, 11])).map
      (fun t => StringTensorPack_evaluate t.1 t.2.1 t.2.2) =
    some (canonicalPacked 2 [3, 5] [7, 8, 9, 10, 11]) :=
  C2_pack_unpack_identity 2 [3, 5] [7, 8, 9, 10, 11] (by norm_num) rfl
    (by decide) (by norm_num [List.chain'_cons]) (by decide)

theorem readU32_lt (buf : List Nat) (off : Nat) (h : ∀ b ∈ buf, b < 256) :
    readU32 buf off < 2 ^ 32 := by
  have hsub : ∀ b ∈ buf.drop off, b < 256 := fun b hb =>
    h b (List.drop_subset off buf hb)
  unfold readU32
  cases hd : buf.drop off with
  | nil => exact (show (0 : Nat) < 2 ^ 32 by norm_num)
  | cons b0 t0 =>
    cases t0 with
    | nil => exact (show (0 : Nat) < 2 ^ 32 by norm_num)
    | cons b1 t1 =>
      cases t1 with
      | nil => exact (show (0 : Nat) < 2 ^ 32 by norm_num)
      | cons b2 t2 =>
        cases t2 with
        | nil => exact (show (0 : Nat) < 2 ^ 32 by norm_num)
        | cons b3 t3 =>
          have h0 : b0 < 256 := hsub b0 (by rw [hd]; simp)
          have h1 : b1 < 256 := hsub b1 (by rw [hd]; simp)
          have h2 : b2 < 256 := hsub b2 (by rw [hd]; simp)
          have h3 : b3 < 256 := hsub b3 (by rw [hd]; simp)
          exact (show b0 + 256 * b1 + 65536 * b2 + 16777216 * b3 < 2 ^ 32
            by omega)

theorem readI32_range (buf : List Nat) (off : Nat) (h : ∀ b ∈ buf, b < 256) :
    -(2 ^ 31) ≤ readI32 buf off ∧ readI32 buf off < 2 ^ 31 := by
  have hu := readU32_lt buf off h
  unfold readI32
  split <;> omega

/-- Claim C3 (amended): on a byte buffer, the reader fails exactly when the
header-size check fails — when the total byte length is under 4 (the batch
size itself cannot be read), or, for a nonnegative declared batch size `N`,
when the total byte length is under `4 + 4 * (N + 1)`; whenever the header
fits, parsing succeeds.  In particular no check of `offsets[N]` against the
remaining payload size is performed before string bytes are read. -/
theorem C3_unpack_size_checks (buf : List Nat)
    (hbytes : ∀ b ∈ buf, b < 256) :
    (buf.length < 4 → parse_packed_strings buf = none) ∧
    (4 ≤ buf.length → 0 ≤ readI32 buf 0 →
      (((buf.length : Int) < 4 + 4 + 4 * readI32 buf 0) →
        parse_packed_strings buf = none) ∧
      ((4 + 4 + 4 * readI32 buf 0 ≤ (buf.length : Int)) →
        (parse_packed_strings buf).isSome = true)) := by
  have hr := readI32_range buf 0 hbytes
  constructor
  · intro h
    unfold parse_packed_strings
    rw [if_pos h]
  · intro h4 hN
    have hsz : toSizeT (4 + 4 + 4 * readI32 buf 0) =
        (4 + 4 + 4 * readI32 buf 0).toNat := by
      unfold toSizeT
      rw [Int.emod_eq_of_lt (by omega) (by omega)]
    constructor
    · intro hlt
      unfold parse_packed_strings
      rw [if_neg (by omega), if_pos (by rw [hsz]; omega)]
    · intro hge
      unfold parse_packed_strings
      rw [if_neg (by omega), if_neg (by rw [hsz]; omega)]
      rfl

/-- Counterexample to claim C3 as stated: `overflowingPacked` declares batch
size `N = 1` in 12 total bytes, so `offsets[N] = 100` exceeds
`total_bytes - 4 * (N + 2) = 0`, yet both the parser and the full unpack
accept the buffer instead of rejecting it. -/
theorem C3_offsets_bound_not_checked :
    readI32 overflowingPacked 0 = 1 ∧
    overflowingPacked.length = 12 ∧
    readI32 overflowingPacked 8 = 100 ∧
    ¬ ((100 : Int) ≤ (12 : Int) - 4 * (1 + 2)) ∧
    (parse_packed_strings overflowingPacked).isSome = true ∧
    (StringTensorUnpack_evaluate overflowingPacked).isSome = true := by
  decide

/-- Witness for C3: the amended theorem applied at a well-formed one-string
buffer (accepted) and at a 3-byte buffer (rejected). -/
theorem C3_unpack_size_checks_witness :
    (parse_packed_strings (canonicalPacked 1 [1] [9])).isSome = true ∧
    parse_packed_strings [0, 0, 0] = none := by
  constructor
  · exact ((C3_unpack_size_checks (canonicalPacked 1 [1] [9])
      (by decide)).2 (by decide) (by decide)).2 (by decide)
  · exact (C3_unpack_size_checks [0, 0, 0] (by decide)).1 (by decide)

theorem sliceRow_concatAll {α : Type} (rs : List (List α)) (w : Nat)
    (h : ∀ r ∈ rs, r.length = w) (i : Nat) (hi : i < rs.length) :
    sliceRow (concatAll rs) w i = rs.getD i [] := by
  induction rs generalizing i with
  | nil => simp at hi
  | cons r rest ih =>
      cases i with
      | zero =>
          have hr : r.length = w := h r (List.mem_cons_self r rest)
          simp only [sliceRow, Nat.zero_mul, List.drop_zero, concatAll,
            List.getD_cons_zero]
          rw [← hr, List.take_left]
      | succ k =>
          have hr : r.length = w := h r (List.mem_cons_self r rest)
          simp only [sliceRow, concatAll, List.getD_cons_succ]
          have hst : (k + 1) * w = r.length + k * w := by rw [hr]; ring
          rw [hst, List.drop_append]
          simpa [sliceRow] using
            ih (fun x hx => h x (List.mem_cons_of_mem r hx)) k
              (by simpa using hi)

theorem raggedToDenseRowElems_length (elems : List Int)
    (default_value : Int) (target_dim : Nat) (b e : Int)
    (hb : 0 ≤ b) (hbe : b ≤ e) (he : e ≤ (elems.length : Int))
    (hmach : elems.length < 2 ^ 64) :
    (raggedToDenseRowElems elems default_value target_dim b e).length =
      target_dim := by
  have htosize : toSizeT (e - b) = (e - b).toNat := by
    unfold toSizeT
    rw [Int.emod_eq_of_lt (by omega) (by omega)]
  simp only [raggedToDenseRowElems, htosize, List.length_append,
    List.length_take, List.length_drop, List.length_replicate]
  omega

theorem raggedToDenseRowMask_length (target_dim : Nat) (b e : Int) :
    (raggedToDenseRowMask target_dim b e).length = target_dim := by
  simp only [raggedToDenseRowMask, List.length_append,
    List.length_replicate]
  omega

/-- Claim C1: for every well-formed ragged tensor input, scalar `target_dim`
and `default_value`, row `i` of the dense output consists of
`elems[rag_begins[i] .. rag_begins[i] + min(rag_ends[i] - rag_begins[i],
target_dim))` followed by copies of `default_value` up to width
`target_dim`, and row `i` of the mask is `1` exactly on the copied-element
positions and `0` exactly on the padding positions.  Overlong rows are
truncated silently by the `min` — `RaggedToDense_evaluate` is a total
function with no error path. -/
theorem C1_ragged_to_dense_rows (begins ends elems : List Int)
    (target_dim : Nat) (default_value : Int)
    (hlen : ends.length = begins.length)
    (hvalid : ∀ j, j < begins.length →
      0 ≤ begins.getD j 0 ∧ begins.getD j 0 ≤ ends.getD j 0 ∧
        ends.getD j 0 ≤ (elems.length : Int))
    (hmach : elems.length < 2 ^ 64)
    (i : Nat) (hi : i < begins.length) :
    sliceRow (RaggedToDense_evaluate begins ends elems target_dim
        default_value).1 target_dim i =
      (elems.drop (begins.getD i 0).toNat).take
          (min (ends.getD i 0 - begins.getD i 0).toNat target_dim) ++
        List.replicate
          (target_dim -
            min (ends.getD i 0 - begins.getD i 0).toNat target_dim)
          default_value ∧
    sliceRow (RaggedToDense_evaluate begins ends elems target_dim
        default_value).2 target_dim i =
      List.replicate
          (min (ends.getD i 0 - begins.getD i 0).toNat target_dim) true ++
        List.replicate
          (target_dim -
            min (ends.getD i 0 - begins.getD i 0).toNat target_dim)
          false := by
  obtain ⟨hb0, hbe, hel⟩ := hvalid i hi
  have htosize : toSizeT (ends.getD i 0 - begins.getD i 0) =
      (ends.getD i 0 - begins.getD i 0).toNat := by
    unfold toSizeT
    rw [Int.emod_eq_of_lt (by omega) (by omega)]
  constructor
  · rw [show (RaggedToDense_evaluate begins ends elems target_dim
        default_value).1 =
      concatAll ((List.range begins.length).map (fun j =>
        raggedToDenseRowElems elems default_value target_dim
          (begins.getD j 0) (ends.getD j 0))) from rfl]
    rw [sliceRow_concatAll _ target_dim
      (by
        intro r hr
        obtain ⟨j, hj, rfl⟩ := List.mem_map.mp hr
        obtain ⟨h1, h2, h3⟩ := hvalid j (List.mem_range.mp hj)
        exact raggedToDenseRowElems_length elems default_value target_dim
          _ _ h1 h2 h3 hmach)
      i (by simpa using hi)]
    rw [List.getD_eq_getElem _ _ (by simpa using hi)]
    simp only [List.getElem_map, List.getElem_range]
    rw [show raggedToDenseRowElems elems default_value target_dim
        (begins.getD i 0) (ends.getD i 0) =
      (elems.drop (begins.getD i 0).toNat).take
          (min (toSizeT (ends.getD i 0 - begins.getD i 0)) target_dim) ++
        List.replicate (target_dim -
          min (toSizeT (ends.getD i 0 - begins.getD i 0)) target_dim)
          default_value from rfl]
    rw [htosize]
  · rw [show (RaggedToDense_evaluate begins ends elems target_dim
        default_value).2 =
      concatAll ((List.range begins.length).map (fun j =>
        raggedToDenseRowMask target_dim
          (begins.getD j 0) (ends.getD j 0))) from rfl]
    rw [sliceRow_concatAll _ target_dim
      (by
        intro r hr
        obtain ⟨j, hj, rfl⟩ := List.mem_map.mp hr
        exact raggedToDenseRowMask_length target_dim _ _)
      i (by simpa using hi)]
    rw [List.getD_eq_getElem _ _ (by simpa using hi)]
    simp only [List.getElem_map, List.getElem_range]
    rw [show raggedToDenseRowMask target_dim
        (begins.getD i 0) (ends.getD i 0) =
      List.replicate
          (min (toSizeT (ends.getD i 0 - begins.getD i 0)) target_dim)
          true ++
        List.replicate (target_dim -
          min (toSizeT (ends.getD i 0 - begins.getD i 0)) target_dim)
          false from rfl]
    rw [htosize]

/-- Witness for C1 at the spec's worked example: `rag_begins = [0, 3]`,
`rag_ends = [3, 5]`, `elems = [7, 8, 9, 10, 11]`, `target_dim = 4`,
`default = 0`; row 1 is `[10, 11, 0, 0]` with mask `[1, 1, 0, 0]`. -/
theorem C1_ragged_to_dense_rows_witness :
    sliceRow (RaggedToDense_evaluate [0, 3] [3, 5] [7, 8, 9, 10, 11] 4 0).1
        4 1 = [10, 11, 0, 0] ∧
    sliceRow (RaggedToDense_evaluate [0, 3] [3, 5] [7, 8, 9, 10, 11] 4 0).2
        4 1 = [true, true, false, false] := by
  have h := C1_ragged_to_dense_rows [0, 3] [3, 5] [7, 8, 9, 10, 11] 4 0
    rfl (by decide) (by norm_num) 1 (by norm_num)
  exact ⟨by rw [h.1]; decide, by rw [h.2]; decide⟩

theorem combineRows_begins_ends_eq (inputs : List (RaggedTensor × Int))
    (rows : List Nat) (off : Nat) :
    (combineRows inputs rows off).1 =
      (combineRows inputs rows off).2.2.2.1 ∧
    (combineRows inputs rows off).2.1 =
      (combineRows inputs rows off).2.2.2.2.1 := by
  induction rows generalizing off with
  | nil => exact ⟨rfl, rfl⟩
  | cons i rest ih =>
      simp only [combineRows]
      exact ⟨by rw [(ih _).1], by rw [(ih _).2]⟩

/-- Claim C9: in every evaluation of `CombineSegments`, the concatenated-
elements ragged output and the segment-ids ragged output carry identical
`rag_begins` arrays and identical `rag_ends` arrays, element for element. -/
theorem C9_combine_segments_shared_offsets (inputs : List RaggedTensor)
    (ids : List Int) :
    (CombineSegments_evaluate inputs ids).1 =
      (CombineSegments_evaluate inputs ids).2.2.2.1 ∧
    (CombineSegments_evaluate inputs ids).2.1 =
      (CombineSegments_evaluate inputs ids).2.2.2.2.1 := by
  unfold CombineSegments_evaluate
  exact combineRows_begins_ends_eq _ _ 0

theorem offsetsChain_congr (k : Int) (bs es : List Int) (t t' : Int)
    (h : offsetsChain k bs es t) (ht : t = t') : offsetsChain k bs es t' :=
  ht ▸ h

theorem evaluate_normalization_helper_go_chain (chars : List Nat)
    (normalizer : List Nat → List Nat) (rows : List (Int × Int)) (k : Nat) :
    offsetsChain (k : Int)
      (evaluate_normalization_helper_go chars normalizer rows k).1
      (evaluate_normalization_helper_go chars normalizer rows k).2.1
      ((k : Int) +
        ((evaluate_normalization_helper_go chars normalizer
            rows k).2.2.length : Int)) := by
  induction rows generalizing k with
  | nil => simp [evaluate_normalization_helper_go, offsetsChain]
  | cons p rest ih =>
      obtain ⟨b, e⟩ := p
      simp only [evaluate_normalization_helper_go, offsetsChain]
      refine ⟨trivial, ?_⟩
      refine offsetsChain_congr _ _ _ _ _
        (ih (k + (normalizer ((chars.drop b.toNat).take
          (e - b).toNat)).length)) ?_
      simp only [List.length_append]
      push_cast
      ring

theorem WordpieceTokenizer_go_chain (tokenize : List Nat → List Int)
    (begins ends : List Int) (chars : List Nat) (rows : List (Int × Int))
    (off : Int) :
    offsetsChain off
      (WordpieceTokenizer_go tokenize begins ends chars rows off).1
      (WordpieceTokenizer_go tokenize begins ends chars rows off).2.1
      (off + ((WordpieceTokenizer_go tokenize begins ends chars
          rows off).2.2.length : Int)) := by
  induction rows generalizing off with
  | nil => simp [WordpieceTokenizer_go, offsetsChain]
  | cons p rest ih =>
      obtain ⟨rb, re⟩ := p
      simp only [WordpieceTokenizer_go, offsetsChain]
      refine ⟨trivial, ?_⟩
      refine offsetsChain_congr _ _ _ _ _ (ih _) ?_
      simp only [List.length_append]
      push_cast
      ring

theorem BPETokenizer_go_chain (tokenize : List Nat → List Int)
    (begins ends : List Int) (chars : List Nat) (rows : List (Int × Int))
    (off : Int) :
    offsetsChain off
      (BPETokenizer_go tokenize begins ends chars rows off).1
      (BPETokenizer_go tokenize begins ends chars rows off).2.1
      (off + ((BPETokenizer_go tokenize begins ends chars
          rows off).2.2.length : Int)) := by
  induction rows generalizing off with
  | nil => simp [BPETokenizer_go, offsetsChain]
  | cons p rest ih =>
      obtain ⟨rb, re⟩ := p
      simp only [BPETokenizer_go, offsetsChain]
      refine ⟨trivial, ?_⟩
      refine offsetsChain_congr _ _ _ _ _ (ih _) ?_
      simp only [List.length_append]
      push_cast
      ring

/-- Claim C10: every string triple produced by the normalization helper
(hence by CaseFold, NormalizeUnicode and RegexNormalization, for every
per-string transform) and every ragged i32 output of WordpieceTokenizer and
BPETokenizer (for every external tokenize oracle) is a gap-free contiguous
partition of its flat output buffer: the first begin offset is 0, each
element's begin equals the previous element's end, and the last end equals
the length of the flat chars/elements buffer. -/
theorem C10_outputs_gap_free :
    (∀ (begins ends : List Int) (chars : List Nat)
        (normalizer : List Nat → List Nat),
      offsetsChain 0
        (evaluate_normalization_helper begins ends chars normalizer).1
        (evaluate_normalization_helper begins ends chars normalizer).2.1
        ((evaluate_normalization_helper begins ends chars
            normalizer).2.2.length : Int)) ∧
    (∀ (tokenize : List Nat → List Int)
        (rag_begins rag_ends begins ends : List Int) (chars : List Nat),
      offsetsChain 0
        (WordpieceTokenizer_evaluate tokenize rag_begins rag_ends begins
            ends chars).1
        (WordpieceTokenizer_evaluate tokenize rag_begins rag_ends begins
            ends chars).2.1
        ((WordpieceTokenizer_evaluate tokenize rag_begins rag_ends begins
            ends chars).2.2.length : Int)) ∧
    (∀ (tokenize : List Nat → List Int)
        (rag_begins rag_ends begins ends : List Int) (chars : List Nat),
      offsetsChain 0
        (BPETokenizer_evaluate tokenize rag_begins rag_ends begins ends
            chars).1
        (BPETokenizer_evaluate tokenize rag_begins rag_ends begins ends
            chars).2.1
        ((BPETokenizer_evaluate tokenize rag_begins rag_ends begins ends
            chars).2.2.length : Int)) := by
  refine ⟨?_, ?_, ?_⟩
  · intro begins ends chars normalizer
    unfold evaluate_normalization_helper
    simpa using evaluate_normalization_helper_go_chain chars normalizer
      (begins.zip ends) 0
  · intro tokenize rag_begins rag_ends begins ends chars
    unfold WordpieceTokenizer_evaluate
    simpa using WordpieceTokenizer_go_chain tokenize begins ends chars
      (rag_begins.zip rag_ends) 0
  · intro tokenize rag_begins rag_ends begins ends chars
    unfold BPETokenizer_evaluate
    simpa using BPETokenizer_go_chain tokenize begins ends chars
      (rag_begins.zip rag_ends) 0

theorem SentencepieceTokenizer_go_spec
    (encode : List Nat → Option (List Int)) (sentences : List (List Nat))
    (bi : Int) (maxT : Nat) :
    ((∃ s ∈ sentences, encode s = none) →
      SentencepieceTokenizer_go encode sentences bi maxT = none) ∧
    ((∀ s ∈ sentences, (encode s).isSome = true) →
      (SentencepieceTokenizer_go encode sentences bi maxT).isSome =
        true) := by
  induction sentences generalizing bi maxT with
  | nil => simp [SentencepieceTokenizer_go]
  | cons s rest ih =>
      constructor
      · rintro ⟨x, hx, hnone⟩
        rcases List.mem_cons.mp hx with h | h
        · subst h
          simp [SentencepieceTokenizer_go, hnone]
        · cases hs : encode s with
          | none => simp [SentencepieceTokenizer_go, hs]
          | some ids =>
              have hrest := (ih (bi + 1) (max maxT ids.length)).1
                ⟨x, h, hnone⟩
              simp [SentencepieceTokenizer_go, hs, hrest]
      · intro hall
        have hs := hall s (List.mem_cons_self s rest)
        cases hs2 : encode s with
        | none => rw [hs2] at hs; simp at hs
        | some ids =>
            have hrest := (ih (bi + 1) (max maxT ids.length)).2
              (fun x hx => hall x (List.mem_cons_of_mem s hx))
            cases hr : SentencepieceTokenizer_go encode rest (bi + 1)
                (max maxT ids.length) with
            | none => rw [hr] at hrest; simp at hrest
            | some r => simp [SentencepieceTokenizer_go, hs2, hr]

/-- Claim C4 (amended): in `SentencepieceTokenizer::evaluate`, a failing
per-sentence `SampleEncode` status hits `CHECK_OK` and terminates the whole
evaluation — no empty token list is emitted and the remaining sentences are
not processed.  Only when every sentence encodes successfully does the
batch evaluation complete (a sentence whose successful encoding is the
empty token list simply contributes no tokens). -/
theorem C4_encode_failure_aborts (encode : List Nat → Option (List Int))
    (sentences : List (List Nat)) :
    ((∃ s ∈ sentences, encode s = none) →
      SentencepieceTokenizer_evaluate encode sentences = none) ∧
    ((∀ s ∈ sentences, (encode s).isSome = true) →
      (SentencepieceTokenizer_evaluate encode sentences).isSome =
        true) := by
  have h := SentencepieceTokenizer_go_spec encode sentences 0 0
  constructor
  · intro hex
    unfold SentencepieceTokenizer_evaluate
    rw [h.1 hex]
    rfl
  · intro hall
    unfold SentencepieceTokenizer_evaluate
    cases hr : SentencepieceTokenizer_go encode sentences 0 0 with
    | none =>
        have hsome := h.2 hall
        rw [hr] at hsome
        simp at hsome
    | some r => simp

/-- Counterexample to claim C4 as stated: with an encode oracle that fails
on the sentence `[0]` and succeeds elsewhere, evaluating the batch
`[[0], [1]]` does not complete with an empty token list for the bad
sentence — the whole evaluation aborts (`none`), while the same oracle on
the remaining sentence alone completes fine. -/
theorem C4_single_failure_kills_batch :
    SentencepieceTokenizer_evaluate encodeFailOnFirst [[0], [1]] = none ∧
    encodeFailOnFirst [0] = none ∧
    encodeFailOnFirst [1] = some [5] ∧
    SentencepieceTokenizer_evaluate encodeFailOnFirst [[1]] =
      some ([(0, 0)], [5], (1, 1)) := by
  decide

/-- Witness for C4: the amended theorem applied at the concrete oracle and
batches. -/
theorem C4_encode_failure_aborts_witness :
    SentencepieceTokenizer_evaluate encodeFailOnFirst [[0]] = none ∧
    (SentencepieceTokenizer_evaluate encodeFailOnFirst [[1]]).isSome =
      true := by
  constructor
  · exact (C4_encode_failure_aborts encodeFailOnFirst [[0]]).1
      ⟨[0], by decide, by decide⟩
  · exact (C4_encode_failure_aborts encodeFailOnFirst [[1]]).2 (by decide)

/-- Claim C7 (amended): `RegexSplit` validation accepts exactly the four
behaviour strings of the source's `split_modes` table — `remove`,
`isolate`, `merge_with_previous`, `merge_with_next`; every other string
(including the spec's `removed`, `isolated`, `merged_with_previous`,
`merged_with_next`) fails with the `UnknownSplitMode` assertion. -/
theorem C7_split_modes_exact (behaviour : String) :
    RegexSplit_validate behaviour = true ↔
      (behaviour = "remove" ∨ behaviour = "isolate" ∨
       behaviour = "merge_with_previous" ∨
       behaviour = "merge_with_next") := by
  constructor
  · intro h
    by_cases h1 : behaviour = "remove"
    · exact Or.inl h1
    by_cases h2 : behaviour = "isolate"
    · exact Or.inr (Or.inl h2)
    by_cases h3 : behaviour = "merge_with_previous"
    · exact Or.inr (Or.inr (Or.inl h3))
    by_cases h4 : behaviour = "merge_with_next"
    · exact Or.inr (Or.inr (Or.inr h4))
    exfalso
    have e1 : (behaviour == "remove") = false := beq_eq_false_iff_ne.mpr h1
    have e2 : (behaviour == "isolate") = false :=
      beq_eq_false_iff_ne.mpr h2
    have e3 : (behaviour == "merge_with_previous") = false :=
      beq_eq_false_iff_ne.mpr h3
    have e4 : (behaviour == "merge_with_next") = false :=
      beq_eq_false_iff_ne.mpr h4
    simp [RegexSplit_validate, split_modes, List.lookup, e1, e2, e3,
      e4] at h
  · rintro (rfl | rfl | rfl | rfl) <;> decide

/-- Counterexample to claim C7 as stated: the four behaviour names the
claim lists are all rejected by validation, while the table's actual names
are accepted. -/
theorem C7_spec_names_rejected :
    RegexSplit_validate "removed" = false ∧
    RegexSplit_validate "isolated" = false ∧
    RegexSplit_validate "merged_with_previous" = false ∧
    RegexSplit_validate "merged_with_next" = false ∧
    RegexSplit_validate "remove" = true ∧
    RegexSplit_validate "isolate" = true ∧
    RegexSplit_validate "merge_with_previous" = true ∧
    RegexSplit_validate "merge_with_next" = true := by
  decide

/-- Witness for C7: the amended characterization applied at an accepted
mode. -/
theorem C7_split_modes_exact_witness :
    RegexSplit_validate "merge_with_next" = true :=
  (C7_split_modes_exact "merge_with_next").mpr
    (Or.inr (Or.inr (Or.inr rfl)))

set_option maxRecDepth 4096 in
/-- Claim C6 (amended): every byte maps to 1 or 2 output bytes (so the
output is at most twice the input); `33..126` map to themselves as single
bytes; `161..172` and `174..255` map to the two-byte UTF-8 encoding of the
code point equal to the byte value (not to themselves as single bytes);
`0..32`, `127..160` and `173` map to the two-byte UTF-8 encodings of code
points `0x100..0x143`. -/
theorem C6_table_characterization : ∀ b, b < 256 → C6TableSpec b := by
  decide

/-- Counterexample to claim C6 as stated: byte `161` does not map to itself
as a single byte — its image is the two-byte sequence `[194, 161]`.  The
spec's worked examples (`0x20 ↦ 0xC4 0xA0`, `0x41 ↦ 0x41`) do hold. -/
theorem C6_byte_161_not_single :
    bytes_to_chars 161 = [194, 161] ∧ ¬ bytes_to_chars 161 = [161] ∧
    bytes_to_chars 32 = [196, 160] ∧ bytes_to_chars 65 = [65] := by
  decide

/-- Witness for C6: the characterization applied at bytes 174 and 32. -/
theorem C6_table_characterization_witness :
    C6TableSpec 174 ∧ C6TableSpec 32 :=
  ⟨C6_table_characterization 174 (by norm_num),
   C6_table_characterization 32 (by norm_num)⟩

/-- Claim C5 is contradicted by the code (code bug): `BytesToChars`
passes `rag_begins`/`rag_ends` through unchanged, but the per-string
`new_begins`/`new_ends` outputs are indexed by the row counter `j`, not by
the string index, so for a row holding two strings only cell 0 is written
(and with the whole row's span), while cell 1 of the `M`-cell outputs stays
uninitialized (`none`).  Input: one row of two one-byte strings `A`, `B`. -/
theorem C5_per_string_offsets_uninitialized :
    BytesToChars_evaluate [0] [2] [0, 1] [1, 2] [65, 66] =
      ([0], [2], [some 0, none], [some 2, none], [65, 66]) := by
  decide

/-- Claim C8 is contradicted by the code (code bug): in the ragged branch
of `RegexSplit::evaluate` the assignment `new_ragged_begins[seq] =
ragged_offset` sits inside the word loop, so a row with no words
(`rag_begins[j] = rag_ends[j]`) leaves its output `rag_begins[j]` cell
uninitialized (`none`) instead of making it equal to `rag_ends[j]`.
Input: two rag cells, row 0 empty, row 1 holding the single one-word
string; a second unreferenced string makes `M = inputs[2].get_size() = 2`,
so the source's M-bounded row loop processes both rows.  Row 1 — a
one-word neighbouring row — is written as expected (`rag_begins[1] = 0`,
`rag_ends[1] = 1`, word span `[0, 1)`), while the empty row 0 gets
`rag_ends[0] = 0` but an uninitialized `rag_begins[0]`. -/
theorem C8_empty_row_begin_uninitialized :
    RegexSplit_evaluate_ragged wholeStringSplit [0, 0] [0, 1] [0, 1]
        [1, 1] [97, 98] =
      ([none, some 0], [some 0, some 1], [0], [1], [97, 98]) := by
  decide
